import Mathlib

/-!
Verification of the CPPServiceLocator resolution engine (`ServiceLocator.hpp`).

The development shallowly embeds the engine's core:

* the registry (`_typed_locators` : `std::map<type_index, TypedServiceLocator>` with each
  `TypedServiceLocator::_bindings` : `std::map<string, binding>`, modelled as association
  lists, name-maps kept in `std::map` key order by `mapInsert`);
* the locator parent chain (a `List Reg`, head = the locator itself, tail = ancestors);
* the resolution operations `_resolve`, `_tryResolve`, `_canResolve`, `_visitAll`, `bind`;
* the resolution-context layer (`Context::resolve` / `tryResolve` with
  `checkRecursiveResolve` over the context-ancestor chain);
* the singleton lifecycle of `as_clause::asSingleton` as a two-state machine;
* the deferred after-resolve queue (`Context::afterResolve`) and its drain loop;
* the eager-binding queue flushed by `ServiceLocator::getContext`.

Instances are abstracted as natural numbers (`Inst`); a binding's `_fnGet` call outcome in
the routing model is `Except SLErr (Option Inst)`: it may throw (propagated uncaught by
`_resolve`/`_tryResolve`), return a null `shared_ptr` (`Option.none`), or return an
instance.
-/

namespace CPPServiceLocator

/-- Capability identity (`std::type_index` of the interface), abstracted as `Nat`. -/
abbrev TypeId := Nat

/-- Binding name discriminator (`std::string`). The engine uses names only as
equality- and order-comparable `std::map` keys, so they are abstracted as an
ordered key type; `0` stands for the default (empty) name. -/
abbrev Name := Nat

/-- An abstract instance identity (stands for the returned `shared_ptr`'s pointee;
equality of `Inst` models reference equality of instances). -/
abbrev Inst := Nat

/-- The four exception classes of `ServiceLocator.hpp`. -/
inductive SLErr where
  | duplicateBinding
  | recursiveResolve
  | bindingIssue
  | unableToResolve
deriving DecidableEq, Repr

deriving instance DecidableEq for Except

/-- A registered binding, viewed through what its `_fnGet` call does in the routing
model: throw an exception (propagated), return `nullptr`, or return an instance. -/
structure Binding where
  get : Except SLErr (Option Inst)
deriving DecidableEq, Repr

/-- `TypedServiceLocator::_bindings`: a `std::map<std::string, sptr<loose_binding>>`,
modelled as an association list kept in ascending key order (the iteration order of
`std::map`). -/
abbrev NameMap := List (Name × Binding)

/-- `_bindings.find(name)`: lookup in the name-map. -/
def mapFind (nm : NameMap) (n : Name) : Option Binding :=
  match nm with
  | [] => none
  | (n', b) :: rest => if n' = n then some b else mapFind rest n

/-- `_bindings.insert(...)`: `std::map` insertion keeps the map sorted by key; an
element is placed before the first strictly greater key. -/
def mapInsert (n : Name) (b : Binding) : NameMap → NameMap
  | [] => [(n, b)]
  | (n', b') :: rest =>
    if n < n' then (n, b) :: (n', b') :: rest else (n', b') :: mapInsert n b rest

/-- `ServiceLocator::_typed_locators`: map from capability identity to that
capability's name-map (the `TypedServiceLocator`), as an association list. -/
abbrev Reg := List (TypeId × NameMap)

/-- `getTypedServiceLocator<IFace>(false)`: find this locator's `TypedServiceLocator`
for the capability, or `none` when it was never created. -/
def lookupTyped (r : Reg) (t : TypeId) : Option NameMap :=
  match r with
  | [] => none
  | (t', nm) :: rest => if t' = t then some nm else lookupTyped rest t

/-- Replace (or create) the name-map stored for capability `t`; the update half of
`getTypedServiceLocator<IFace>(true)` followed by mutation of the typed locator. -/
def regSet (r : Reg) (t : TypeId) (nm : NameMap) : Reg :=
  match r with
  | [] => [(t, nm)]
  | (t', nm') :: rest => if t' = t then (t, nm) :: rest else (t', nm') :: regSet rest t nm

/-- `TypedServiceLocator::canResolve(name)`: membership in this locator's own
name-map only. -/
def tslCanResolve (nm : NameMap) (n : Name) : Bool :=
  (mapFind nm n).isSome

/-- `TypedServiceLocator::tryResolve(name, slc)`: `nullptr` when the name is absent,
otherwise the binding's `get` (which may itself throw or return `nullptr`). -/
def tslTryResolve (nm : NameMap) (n : Name) : Except SLErr (Option Inst) :=
  match mapFind nm n with
  | none => .ok none
  | some b => b.get

/-- `TypedServiceLocator::bind(name, ...)`: duplicate check against this locator's own
name-map, then insertion. -/
def tslBind (nm : NameMap) (n : Name) (b : Binding) : Except SLErr NameMap :=
  if tslCanResolve nm n then .error .duplicateBinding
  else .ok (mapInsert n b nm)

/-- `ServiceLocator::bind<IFace>(named)`: create the typed locator when required, then
`TypedServiceLocator::bind` (parent registries are never consulted). -/
def slBind (r : Reg) (t : TypeId) (n : Name) (b : Binding) : Except SLErr Reg :=
  let nm := (lookupTyped r t).getD []
  match tslBind nm n b with
  | .error e => .error e
  | .ok nm' => .ok (regSet r t nm')

/-- A locator's own registered binding under `(t, n)`, when any. -/
def ownBinding (r : Reg) (t : TypeId) (n : Name) : Option Binding :=
  match lookupTyped r t with
  | none => none
  | some nm => mapFind nm n

/-- `ServiceLocator::_resolve<IFace>` over the locator chain (head = this locator,
tail = the parent chain): no typed locator, or a `nullptr` from
`TypedServiceLocator::tryResolve`, delegates to the parent; with no parent the call
throws `UnableToResolveException`; exceptions from a binding's `get` propagate. -/
def slResolve (chain : List Reg) (t : TypeId) (n : Name) : Except SLErr Inst :=
  match chain with
  | [] => .error .unableToResolve
  | r :: rest =>
    match lookupTyped r t with
    | none =>
      if rest.isEmpty then .error .unableToResolve else slResolve rest t n
    | some nm =>
      match tslTryResolve nm n with
      | .error e => .error e
      | .ok none =>
        if rest.isEmpty then .error .unableToResolve else slResolve rest t n
      | .ok (some i) => .ok i

/-- `ServiceLocator::_tryResolve<IFace>` over the locator chain: identical walk, but a
missing binding at the end of the chain yields `nullptr` (`.ok none`) instead of
throwing; exceptions from a binding's `get` still propagate. -/
def slTryResolve (chain : List Reg) (t : TypeId) (n : Name) :
    Except SLErr (Option Inst) :=
  match chain with
  | [] => .ok none
  | r :: rest =>
    match lookupTyped r t with
    | none =>
      if rest.isEmpty then .ok none else slTryResolve rest t n
    | some nm =>
      match tslTryResolve nm n with
      | .error e => .error e
      | .ok none =>
        if rest.isEmpty then .ok none else slTryResolve rest t n
      | .ok (some i) => .ok (some i)

/-- `ServiceLocator::_canResolve<IFace>` over the locator chain: when this locator has
no typed locator for the capability it delegates to the parent (or answers `false`
with no parent); when it has one, the answer is membership in that locator's own
name-map — ancestors are not consulted in that branch. -/
def slCanResolve (chain : List Reg) (t : TypeId) (n : Name) : Bool :=
  match chain with
  | [] => false
  | r :: rest =>
    match lookupTyped r t with
    | none => if rest.isEmpty then false else slCanResolve rest t n
    | some nm => tslCanResolve nm n

/-- `TypedServiceLocator::visitAll`: iterate this capability's name-map in `std::map`
(key) order. -/
def tslVisitAll (nm : NameMap) : List Binding :=
  nm.map Prod.snd

/-- `ServiceLocator::_visitAll<IFace>`: this locator's bindings first, then the
parent chain's. -/
def slVisitAll (chain : List Reg) (t : TypeId) : List Binding :=
  match chain with
  | [] => []
  | r :: rest =>
    (match lookupTyped r t with
     | none => []
     | some nm => tslVisitAll nm) ++ slVisitAll rest t

/-- `Context::resolveAll<IFace>`: the sequence of `binding->get(ctx)` outcomes pushed
into the caller's vector, in visit order. -/
def slResolveAll (chain : List Reg) (t : TypeId) : List (Except SLErr (Option Inst)) :=
  (slVisitAll chain t).map Binding.get

/-- One frame of the resolution-context chain: the `(interfaceType, name)` of a
`Context` node. A chain lists the caller's context and its ancestors, innermost
first (the synthetic root carries `typeid(void)` and the empty name). -/
abbrev CtxChain := List (TypeId × Name)

/-- `Context::checkRecursiveResolve`: walk the comparison context and its parents;
a conflict needs the same capability identity and the same name. -/
def checkRecursiveResolve (t : TypeId) (n : Name) (chain : CtxChain) : Bool :=
  match chain with
  | [] => false
  | (t', n') :: rest => (t' = t && n' = n) || checkRecursiveResolve t n rest

/-- `Context::resolve<IFace>(named)`: the cycle check runs against the caller's
context chain before `_resolve` (and hence before any construction) is entered. -/
def ctxResolve (chain : CtxChain) (regs : List Reg) (t : TypeId) (n : Name) :
    Except SLErr Inst :=
  if checkRecursiveResolve t n chain then .error .recursiveResolve
  else slResolve regs t n

/-- `Context::tryResolve<IFace>(named)`: same cycle check, then `_tryResolve`. -/
def ctxTryResolve (chain : CtxChain) (regs : List Reg) (t : TypeId) (n : Name) :
    Except SLErr (Option Inst) :=
  if checkRecursiveResolve t n chain then .error .recursiveResolve
  else slTryResolve regs t n

/-! ### Singleton lifecycle (`as_clause::asSingleton`)

`asSingleton` installs a `_fnGet` that, on its first call, runs `_fnCreate`, stores
the result in `_singleton` and rebinds `_fnGet` to return the stored instance; when
`_fnCreate` throws, neither the store nor the rebinding happens. The binding is thus
a two-state machine; each `get` call is driven by the outcome the construction
function would produce on that call. -/

/-- Singleton binding state: construction not yet succeeded, or initialized with a
cached instance. -/
inductive SingState where
  | uninit
  | init (v : Inst)
deriving DecidableEq, Repr

/-- One `get` call on a singleton binding. `create` is the outcome `_fnCreate` would
produce on this call; it is consulted only in the `uninit` state. -/
def singGet (create : Except SLErr Inst) : SingState → Except SLErr Inst × SingState
  | .uninit =>
    match create with
    | .error e => (.error e, .uninit)
    | .ok v => (.ok v, .init v)
  | .init v => (.ok v, .init v)

/-- A sequence of `get` calls on a singleton binding, threading the state; returns
the per-call outcomes and the final state. -/
def singRun : List (Except SLErr Inst) → SingState →
    List (Except SLErr Inst) × SingState
  | [], s => ([], s)
  | c :: cs, s =>
    let p := singGet c s
    let q := singRun cs p.2
    (p.1 :: q.1, q.2)

/-! ### Deferred after-resolve queue (`Context::afterResolve`)

`Context::afterResolve(fn)` appends `fn` to the root context's
`_fnAfterResolveList` (creating the list on first use). The parameterless
`afterResolve()`, run at the end of every `resolve`/`tryResolve`, does nothing
unless `this == _root`; at the root it iterates the list, handing every callback a
newly created root context (`Context(_sl)`), then deletes the list. Since the list
is a `std::list` iterated up to its end sentinel, callbacks that append further
callbacks to the same root's list during the drain are themselves visited; a
callback is modelled by the list of callbacks it enqueues onto the draining
root's queue when run. -/

/-- A deferred callback, modelled by the callbacks it enqueues onto the draining
root context's queue when executed. -/
inductive CB where
  | mk (spawns : List CB)

mutual

/-- Number of callback nodes reachable from a callback (itself included). -/
def CB.size : CB → Nat
  | .mk l => 1 + CB.sizeList l

/-- Number of callback nodes reachable from a queue of callbacks. -/
def CB.sizeList : List CB → Nat
  | [] => 0
  | c :: cs => c.size + CB.sizeList cs

end

mutual

/-- Every callback executed if this callback is enqueued: itself and, transitively,
everything it enqueues. -/
def CB.allNodes : CB → List CB
  | .mk l => .mk l :: CB.allNodesList l

/-- Every callback executed if this queue is drained. -/
def CB.allNodesList : List CB → List CB
  | [] => []
  | c :: cs => c.allNodes ++ CB.allNodesList cs

end

/-- The context handed to a callback during the drain: its anchoring locator
(`_sl`) and its parent link. -/
structure DrainCtx where
  anchor : Nat
  parent : Option Nat
deriving DecidableEq, Repr

/-- `Context(wptr<ServiceLocator> sl)`: a fresh root context anchored at the
locator, with no parent. -/
def newRootCtx (sl : Nat) : DrainCtx :=
  { anchor := sl, parent := none }

theorem CB.sizeList_append (l₁ l₂ : List CB) :
    CB.sizeList (l₁ ++ l₂) = CB.sizeList l₁ + CB.sizeList l₂ := by
  induction l₁ with
  | nil => simp [CB.sizeList]
  | cons c cs ih => simp [CB.sizeList, ih]; omega

/-- The drain loop of `Context::afterResolve()`: run the queue front to back, each
callback receiving a newly created root context; callbacks enqueued during the
drain land at the back of the same queue and are visited in turn. Returns the
execution trace in order. -/
def drain (sl : Nat) : List CB → List (CB × DrainCtx)
  | [] => []
  | .mk spawns :: rest => (.mk spawns, newRootCtx sl) :: drain sl (rest ++ spawns)
termination_by q => CB.sizeList q
decreasing_by
  simp [CB.sizeList_append, CB.sizeList, CB.size]
  omega

/-- `Context::afterResolve()` as a whole: only when the completing context is its
chain's root (`this == _root`) is the queue (when present) drained and then
destroyed; otherwise nothing happens. Returns the execution trace and the queue
left behind. -/
def afterResolveRun (sl : Nat) (isRootSelf : Bool) (queue : Option (List CB)) :
    List (CB × DrainCtx) × Option (List CB) :=
  if isRootSelf then
    match queue with
    | none => ([], none)
    | some q => (drain sl q, none)
  else ([], queue)

/-- `Context::afterResolve(fn)` routed to the root: append to the root's list,
creating it on first registration. -/
def afterResolveRegister (queue : Option (List CB)) (fn : CB) : Option (List CB) :=
  some (queue.getD [] ++ [fn])

/-! ### Eager-binding queue (`eagerly` / `ServiceLocator::getContext`)

`eagerly()` pushes the binding onto the owning locator's `_eagerBindings` list and
performs no construction. `getContext()` first flushes that list — calling each
queued binding's `_fnGet` through `eagerBind` — and clears it, then returns the
persistent context. Eager bindings are identified by `Nat` tags; the "events" of
an operation are the `_fnGet` invocations it performs, in order. -/

/-- The eager-queue portion of a locator's state (`_eagerBindings`). -/
structure EagerLoc where
  eagerBindings : List Nat
deriving DecidableEq, Repr

/-- `bind<IFace>(...)....eagerly()`: record the binding in the eager queue;
nothing is constructed at bind time. -/
def eagerly (l : EagerLoc) (b : Nat) : EagerLoc :=
  ⟨l.eagerBindings ++ [b]⟩

/-- `ServiceLocator::getContext()`: when the eager queue is non-empty, call
`eagerBind` (that is, `_fnGet`) for each queued binding in order and clear the
queue. Returns the construction events and the new state. -/
def getContext (l : EagerLoc) : List Nat × EagerLoc :=
  if l.eagerBindings.length > 0 then (l.eagerBindings, ⟨[]⟩) else ([], l)

/-- Setup-phase operations touching the eager queue. -/
inductive EOp where
  | bindEager (b : Nat)
  | getCtx
deriving DecidableEq, Repr

/-- Run a sequence of operations, collecting each operation's construction
events. -/
def runEager : List EOp → EagerLoc → List (List Nat) × EagerLoc
  | [], l => ([], l)
  | .bindEager b :: ops, l =>
    let q := runEager ops (eagerly l b)
    ([] :: q.1, q.2)
  | .getCtx :: ops, l =>
    let p := getContext l
    let q := runEager ops p.2
    (p.1 :: q.1, q.2)

/-! ### Helper lemmas about the registry walk -/

theorem slResolve_cons (r : Reg) (rest : List Reg) (t : TypeId) (n : Name) :
    slResolve (r :: rest) t n =
      match lookupTyped r t with
      | none =>
        if rest.isEmpty then .error .unableToResolve else slResolve rest t n
      | some nm =>
        match tslTryResolve nm n with
        | .error e => .error e
        | .ok none =>
          if rest.isEmpty then .error .unableToResolve else slResolve rest t n
        | .ok (some i) => .ok i := rfl

theorem slTryResolve_cons (r : Reg) (rest : List Reg) (t : TypeId) (n : Name) :
    slTryResolve (r :: rest) t n =
      match lookupTyped r t with
      | none => if rest.isEmpty then .ok none else slTryResolve rest t n
      | some nm =>
        match tslTryResolve nm n with
        | .error e => .error e
        | .ok none => if rest.isEmpty then .ok none else slTryResolve rest t n
        | .ok (some i) => .ok (some i) := rfl

theorem slCanResolve_cons (r : Reg) (rest : List Reg) (t : TypeId) (n : Name) :
    slCanResolve (r :: rest) t n =
      match lookupTyped r t with
      | none => if rest.isEmpty then false else slCanResolve rest t n
      | some nm => tslCanResolve nm n := rfl

theorem slResolve_cons_none (r : Reg) (rest : List Reg) (t : TypeId) (n : Name)
    (hl : lookupTyped r t = none) :
    slResolve (r :: rest) t n =
      if rest.isEmpty then .error .unableToResolve else slResolve rest t n := by
  rw [slResolve_cons, hl]

theorem slResolve_cons_found (r : Reg) (rest : List Reg) (t : TypeId) (n : Name)
    (nm : NameMap) (hl : lookupTyped r t = some nm) :
    slResolve (r :: rest) t n =
      match tslTryResolve nm n with
      | .error e => .error e
      | .ok none =>
        if rest.isEmpty then .error .unableToResolve else slResolve rest t n
      | .ok (some i) => .ok i := by
  rw [slResolve_cons, hl]

theorem slTryResolve_cons_none (r : Reg) (rest : List Reg) (t : TypeId) (n : Name)
    (hl : lookupTyped r t = none) :
    slTryResolve (r :: rest) t n =
      if rest.isEmpty then .ok none else slTryResolve rest t n := by
  rw [slTryResolve_cons, hl]

theorem slTryResolve_cons_found (r : Reg) (rest : List Reg) (t : TypeId)
    (n : Name) (nm : NameMap) (hl : lookupTyped r t = some nm) :
    slTryResolve (r :: rest) t n =
      match tslTryResolve nm n with
      | .error e => .error e
      | .ok none => if rest.isEmpty then .ok none else slTryResolve rest t n
      | .ok (some i) => .ok (some i) := by
  rw [slTryResolve_cons, hl]

theorem slResolve_own_some (r : Reg) (rest : List Reg) (t : TypeId) (n : Name)
    (b : Binding) (i : Inst) (hb : ownBinding r t n = some b)
    (hi : b.get = .ok (some i)) : slResolve (r :: rest) t n = .ok i := by
  cases hl : lookupTyped r t with
  | none => simp [ownBinding, hl] at hb
  | some nm =>
    simp only [ownBinding, hl] at hb
    simp [slResolve, hl, tslTryResolve, hb, hi]

theorem slResolve_own_none (r : Reg) (rest : List Reg) (t : TypeId) (n : Name)
    (hb : ownBinding r t n = none) :
    slResolve (r :: rest) t n =
      if rest.isEmpty then .error .unableToResolve else slResolve rest t n := by
  cases hl : lookupTyped r t with
  | none => simp only [slResolve, hl]
  | some nm =>
    simp only [ownBinding, hl] at hb
    simp [slResolve, hl, tslTryResolve, hb]

theorem slResolve_all_none (chain : List Reg) (t : TypeId) (n : Name)
    (h : ∀ r ∈ chain, ownBinding r t n = none) :
    slResolve chain t n = .error .unableToResolve := by
  induction chain with
  | nil => rfl
  | cons r rest ih =>
    rw [slResolve_own_none r rest t n (h r (by simp))]
    cases rest with
    | nil => simp
    | cons r' rest' =>
      rw [if_neg (by simp)]
      exact ih fun x hx => h x (List.mem_cons_of_mem r hx)

/-- C1: a resolve through a child locator for a `(capability, name)` bound in the
child returns the child's own binding's instance; a locator with no own binding for
the pair (an ancestor resolving through itself, or a sibling child) delegates, so it
returns whatever its ancestor chain produces; and when no locator in the chain has a
binding for the pair, resolve fails with `UnableToResolve`. -/
theorem resolve_child_shadowing (child : Reg) (anc : List Reg) (t : TypeId)
    (n : Name) :
    (∀ b i, ownBinding child t n = some b → b.get = .ok (some i) →
        slResolve (child :: anc) t n = .ok i) ∧
    (ownBinding child t n = none → anc ≠ [] →
        slResolve (child :: anc) t n = slResolve anc t n) ∧
    ((∀ r ∈ child :: anc, ownBinding r t n = none) →
        slResolve (child :: anc) t n = .error .unableToResolve) := by
  refine ⟨fun b i hb hi => slResolve_own_some child anc t n b i hb hi, ?_, ?_⟩
  · intro hb hanc
    rw [slResolve_own_none child anc t n hb, if_neg (by simpa using hanc)]
  · exact slResolve_all_none (child :: anc) t n

def cBindChild : Binding := ⟨.ok (some 10)⟩

def cBindParent : Binding := ⟨.ok (some 20)⟩

def cRegChild : Reg := [(1, [(0, cBindChild)])]

def cRegParent : Reg := [(1, [(0, cBindParent)])]

theorem resolve_child_shadowing_witness :
    slResolve [cRegChild, cRegParent] 1 0 = .ok 10 ∧
    slResolve [([] : Reg), cRegParent] 1 0 = slResolve [cRegParent] 1 0 ∧
    slResolve [([] : Reg), ([] : Reg)] 1 0 = .error .unableToResolve :=
  ⟨(resolve_child_shadowing cRegChild [cRegParent] 1 0).1 cBindChild 10 rfl rfl,
   (resolve_child_shadowing [] [cRegParent] 1 0).2.1 rfl (by simp),
   (resolve_child_shadowing [] [[]] 1 0).2.2 (by decide)⟩

/-- C2: `checkRecursiveResolve` trips exactly when some ancestor context frame has
both the same capability identity and the same name; on a conflict both `resolve`
and `tryResolve` fail with `RecursiveResolve` without consulting the registry (so
before any construction function runs); without a conflict — in particular for a
re-entrant resolve of the same capability under a different name — control passes
untouched to the registry walk. -/
theorem recursive_resolve_check (chain : CtxChain) (regs : List Reg) (t : TypeId)
    (n : Name) :
    (checkRecursiveResolve t n chain = true ↔ ∃ p ∈ chain, p.1 = t ∧ p.2 = n) ∧
    (checkRecursiveResolve t n chain = true →
        ctxResolve chain regs t n = .error .recursiveResolve ∧
        ctxTryResolve chain regs t n = .error .recursiveResolve) ∧
    (checkRecursiveResolve t n chain = false →
        ctxResolve chain regs t n = slResolve regs t n ∧
        ctxTryResolve chain regs t n = slTryResolve regs t n) := by
  refine ⟨?_, fun h => ?_, fun h => ?_⟩
  · induction chain with
    | nil => simp [checkRecursiveResolve]
    | cons p rest ih =>
      cases p with
      | mk t' n' =>
        simp only [checkRecursiveResolve, Bool.or_eq_true, Bool.and_eq_true,
          decide_eq_true_eq, ih, List.mem_cons]
        constructor
        · rintro (⟨h1, h2⟩ | ⟨q, hq, h1, h2⟩)
          · exact ⟨(t', n'), Or.inl rfl, h1, h2⟩
          · exact ⟨q, Or.inr hq, h1, h2⟩
        · rintro ⟨q, (rfl | hq), h1, h2⟩
          · exact Or.inl ⟨h1, h2⟩
          · exact Or.inr ⟨q, hq, h1, h2⟩
  · exact ⟨by simp [ctxResolve, h], by simp [ctxTryResolve, h]⟩
  · exact ⟨by simp [ctxResolve, h], by simp [ctxTryResolve, h]⟩

theorem recursive_resolve_check_witness :
    checkRecursiveResolve 1 1 [(1, 1), (0, 0)] = true ∧
    ctxResolve [(1, 1), (0, 0)] [] 1 1 = .error .recursiveResolve ∧
    ctxResolve [(1, 1), (0, 0)] [] 1 2 = slResolve [] 1 2 :=
  ⟨by decide,
   ((recursive_resolve_check [(1, 1), (0, 0)] [] 1 1).2.1 (by decide)).1,
   ((recursive_resolve_check [(1, 1), (0, 0)] [] 1 2).2.2 (by decide)).1⟩

theorem singRun_init (cs : List (Except SLErr Inst)) (v : Inst) :
    singRun cs (.init v) = (cs.map fun _ => Except.ok v, .init v) := by
  induction cs with
  | nil => rfl
  | cons c cs ih => simp [singRun, singGet, ih]

/-- C3: over any sequence of `get` calls on a singleton binding whose construction
attempts first fail `errs.length` times and then succeed with `v`, every failing
call re-enters construction and surfaces its error leaving the binding
uninitialized, the first successful call caches `v`, and every further call returns
the same cached `v` irrespective of what the construction function would now do. -/
theorem singleton_get_caching (errs : List SLErr) (v : Inst)
    (rest : List (Except SLErr Inst)) :
    singRun (errs.map Except.error ++ Except.ok v :: rest) .uninit =
      (errs.map Except.error ++ Except.ok v :: rest.map (fun _ => Except.ok v),
       .init v) := by
  induction errs with
  | nil => simp [singRun, singGet, singRun_init]
  | cons e es ih => simp [singRun, singGet, ih]

theorem CB.allNodesList_append (l₁ l₂ : List CB) :
    CB.allNodesList (l₁ ++ l₂) = CB.allNodesList l₁ ++ CB.allNodesList l₂ := by
  induction l₁ with
  | nil => simp [CB.allNodesList]
  | cons c cs ih => simp [CB.allNodesList, ih]

theorem mem_drain (sl : Nat) (q : List CB) (p : CB × DrainCtx) :
    p ∈ drain sl q ↔ p.1 ∈ CB.allNodesList q ∧ p.2 = newRootCtx sl := by
  induction q using drain.induct sl with
  | case1 => simp [drain, CB.allNodesList]
  | case2 spawns rest ih =>
    rw [drain]
    simp only [List.mem_cons, ih, CB.allNodesList_append, CB.allNodesList,
      CB.allNodes, List.mem_append, Prod.ext_iff]
    tauto

/-- C4: when the completing context is the root of its chain, every callback on the
deferred queue — including every callback transitively enqueued onto that queue by
callbacks running during the drain — is executed exactly with a newly created root
context anchored at the locator, nothing else is executed, and the queue is
destroyed before control returns; when the completing context is not the root,
nothing is executed and the queue is left untouched. -/
theorem afterResolve_drains_queue (sl : Nat) (q : List CB)
    (queue : Option (List CB)) :
    (∀ d : CB, d ∈ CB.allNodesList q →
        (d, newRootCtx sl) ∈ (afterResolveRun sl true (some q)).1) ∧
    (∀ p, p ∈ (afterResolveRun sl true (some q)).1 →
        p.2 = newRootCtx sl ∧ p.1 ∈ CB.allNodesList q) ∧
    (afterResolveRun sl true (some q)).2 = none ∧
    afterResolveRun sl false queue = ([], queue) := by
  refine ⟨fun d hd => ?_, fun p hp => ?_, rfl, rfl⟩
  · exact (mem_drain sl q (d, newRootCtx sl)).mpr ⟨hd, rfl⟩
  · have := (mem_drain sl q p).mp hp
    exact ⟨this.2, this.1⟩

theorem afterResolve_drains_queue_witness :
    (CB.mk [] ∈ CB.allNodesList [CB.mk [CB.mk []]]) ∧
    (CB.mk [], newRootCtx 5) ∈
      (afterResolveRun 5 true (some [CB.mk [CB.mk []]])).1 ∧
    (afterResolveRun 5 true (some [CB.mk [CB.mk []]])).2 = none ∧
    afterResolveRun 5 false (some [CB.mk []]) = ([], some [CB.mk []]) :=
  ⟨by simp [CB.allNodesList, CB.allNodes],
   (afterResolve_drains_queue 5 [CB.mk [CB.mk []]] none).1 (CB.mk [])
     (by simp [CB.allNodesList, CB.allNodes]),
   (afterResolve_drains_queue 5 [CB.mk [CB.mk []]] none).2.2.1,
   (afterResolve_drains_queue 5 [CB.mk []] (some [CB.mk []])).2.2.2⟩

/-! ### Name-map ordering (`std::map` key order) and `resolveAll` -/

/-- Keys of a name-map are sorted ascending — the `std::map` invariant. -/
def NameMapSorted (nm : NameMap) : Prop :=
  (nm.map Prod.fst).Sorted (· < ·)

/-- Every name-map held by a registry satisfies the `std::map` key-order
invariant. -/
def RegWF (r : Reg) : Prop :=
  ∀ p ∈ r, NameMapSorted p.2

/-- The name-map a locator holds for capability `t` (empty when it has none). -/
def ownPairs (r : Reg) (t : TypeId) : NameMap :=
  (lookupTyped r t).getD []

/-- Modelled from the spec's enumeration order, restated over the code's maps:
every binding for the capability across the chain, closest scope first then
ancestors, each locator's name-map in its stored (key) order. -/
def resolveAllSpec (chain : List Reg) (t : TypeId) :
    List (Except SLErr (Option Inst)) :=
  match chain with
  | [] => []
  | r :: rest => ((ownPairs r t).map fun p => p.2.get) ++ resolveAllSpec rest t

theorem mapFind_cons_none {n' : Name} {b' : Binding} {rest : NameMap} {n : Name}
    (h : mapFind ((n', b') :: rest) n = none) : n' ≠ n ∧ mapFind rest n = none := by
  by_cases hc : n' = n
  · simp [mapFind, hc] at h
  · exact ⟨hc, by simpa [mapFind, hc] using h⟩

theorem mem_keys_mapInsert (nm : NameMap) (n x : Name) (b : Binding) :
    x ∈ (mapInsert n b nm).map Prod.fst ↔ x = n ∨ x ∈ nm.map Prod.fst := by
  induction nm with
  | nil => simp [mapInsert]
  | cons p rest ih =>
    obtain ⟨n', b'⟩ := p
    by_cases hlt : n < n'
    · simp only [mapInsert, if_pos hlt, List.map_cons, List.mem_cons]
    · simp only [mapInsert, if_neg hlt, List.map_cons, List.mem_cons, ih]
      tauto

theorem sorted_mapInsert (nm : NameMap) (n : Name) (b : Binding)
    (hs : NameMapSorted nm) (hf : mapFind nm n = none) :
    NameMapSorted (mapInsert n b nm) := by
  induction nm with
  | nil => simp [NameMapSorted, mapInsert]
  | cons p rest ih =>
    obtain ⟨n', b'⟩ := p
    obtain ⟨hne, hrest⟩ := mapFind_cons_none hf
    simp only [NameMapSorted, List.map_cons, List.sorted_cons] at hs
    by_cases hlt : n < n'
    · simp only [NameMapSorted, mapInsert, if_pos hlt, List.map_cons,
        List.sorted_cons]
      refine ⟨fun y hy => ?_, hs.1, hs.2⟩
      rcases List.mem_cons.mp hy with rfl | hy'
      · exact hlt
      · exact lt_trans hlt (hs.1 y hy')
    · have hn'n : n' < n := lt_of_le_of_ne (le_of_not_lt hlt) hne
      simp only [NameMapSorted, mapInsert, if_neg hlt, List.map_cons,
        List.sorted_cons]
      refine ⟨fun y hy => ?_, ih hs.2 hrest⟩
      rcases (mem_keys_mapInsert rest n y b).mp hy with rfl | hy'
      · exact hn'n
      · exact hs.1 y hy'

theorem lookupTyped_mem (r : Reg) (t : TypeId) (nm : NameMap)
    (h : lookupTyped r t = some nm) : (t, nm) ∈ r := by
  induction r with
  | nil => simp [lookupTyped] at h
  | cons p rest ih =>
    obtain ⟨t', nm'⟩ := p
    by_cases hc : t' = t
    · subst hc
      simp [lookupTyped] at h
      subst h
      exact List.mem_cons_self _ _
    · simp only [lookupTyped, if_neg hc] at h
      exact List.mem_cons_of_mem _ (ih h)

theorem mem_regSet (r : Reg) (t : TypeId) (nm : NameMap) (p : TypeId × NameMap)
    (hp : p ∈ regSet r t nm) : p = (t, nm) ∨ p ∈ r := by
  induction r with
  | nil => simpa [regSet] using hp
  | cons q rest ih =>
    obtain ⟨t', nm'⟩ := q
    by_cases hc : t' = t
    · simp only [regSet, if_pos hc, List.mem_cons] at hp
      rcases hp with rfl | hp'
      · exact Or.inl rfl
      · exact Or.inr (List.mem_cons_of_mem _ hp')
    · simp only [regSet, if_neg hc, List.mem_cons] at hp
      rcases hp with rfl | hp'
      · exact Or.inr (List.mem_cons_self _ _)
      · rcases ih hp' with h | h
        · exact Or.inl h
        · exact Or.inr (List.mem_cons_of_mem _ h)

theorem slBind_ok (r : Reg) (t : TypeId) (n : Name) (b : Binding) (r' : Reg)
    (h : slBind r t n b = .ok r') :
    mapFind ((lookupTyped r t).getD []) n = none ∧
      r' = regSet r t (mapInsert n b ((lookupTyped r t).getD [])) := by
  unfold slBind tslBind tslCanResolve at h
  by_cases hf : (mapFind ((lookupTyped r t).getD []) n).isSome
  · simp [hf] at h
  · refine ⟨Option.not_isSome_iff_eq_none.mp hf, ?_⟩
    simp [hf] at h
    exact h.symm

theorem ownPairs_sorted (r : Reg) (t : TypeId) (hwf : RegWF r) :
    NameMapSorted (ownPairs r t) := by
  unfold ownPairs
  cases hl : lookupTyped r t with
  | none => simp [NameMapSorted]
  | some nm => exact hwf (t, nm) (lookupTyped_mem r t nm hl)

/-- C5 amended: `resolveAll` enumerates every binding for the capability across
the locator chain, closest scope first then ancestors, and within each locator the
capability's name-map contributes its bindings in ascending (lexicographic) name
order — the `std::map` key order — rather than in registration order; registries
built through `bind` always satisfy that key-order invariant. -/
theorem resolveAll_name_order (chain : List Reg) (t : TypeId) :
    slResolveAll chain t = resolveAllSpec chain t ∧
    (∀ r ∈ chain, RegWF r → ((ownPairs r t).map Prod.fst).Sorted (· < ·)) ∧
    (∀ (r : Reg) (t' : TypeId) (n : Name) (b : Binding) (r' : Reg),
        RegWF r → slBind r t' n b = .ok r' → RegWF r') := by
  refine ⟨?_, fun r _ hwf => ownPairs_sorted r t hwf, ?_⟩
  · induction chain with
    | nil => rfl
    | cons r rest ih =>
      simp only [slResolveAll, slVisitAll, resolveAllSpec, List.map_append]
      rw [← slResolveAll]
      rw [ih]
      unfold ownPairs
      cases hl : lookupTyped r t <;>
        simp [tslVisitAll, List.map_map, Function.comp]
  · intro r t' n b r' hwf h
    obtain ⟨hnone, rfl⟩ := slBind_ok r t' n b r' h
    intro p hp
    rcases mem_regSet _ _ _ p hp with rfl | hmem
    · exact sorted_mapInsert _ n b (ownPairs_sorted r t' hwf) hnone
    · exact hwf p hmem

def regB5 : Reg := [(1, [(2, ⟨.ok (some 1)⟩)])]

def regBA5 : Reg := [(1, [(1, ⟨.ok (some 2)⟩), (2, ⟨.ok (some 1)⟩)])]

/-- C5 counterexample: capability 1 is bound under name "b" first and under name
"a" second, yet `resolveAll` returns the instance registered second first — the
name-map iterates in `std::map` key order, not registration order. -/
theorem resolveAll_registration_order_cex :
    slBind [] 1 2 ⟨.ok (some 1)⟩ = .ok regB5 ∧
    slBind regB5 1 1 ⟨.ok (some 2)⟩ = .ok regBA5 ∧
    slResolveAll [regBA5] 1 = [.ok (some 2), .ok (some 1)] ∧
    slResolveAll [regBA5] 1 ≠ [.ok (some 1), .ok (some 2)] :=
  ⟨by decide, by decide, by decide, by decide⟩

theorem resolveAll_name_order_witness :
    slResolveAll [regBA5] 1 = resolveAllSpec [regBA5] 1 ∧
    ((ownPairs regBA5 1).map Prod.fst).Sorted (· < ·) ∧
    RegWF regBA5 :=
  ⟨(resolveAll_name_order [regBA5] 1).1,
   (resolveAll_name_order [regBA5] 1).2.1 regBA5 (by simp)
     (by
       intro p hp
       simp only [regBA5, List.mem_singleton] at hp
       subst hp
       simp [NameMapSorted, List.sorted_cons]),
   (resolveAll_name_order [regBA5] 1).2.2 regB5 1 1 ⟨.ok (some 2)⟩ regBA5
     (by
       intro p hp
       simp only [regB5, List.mem_singleton] at hp
       subst hp
       simp [NameMapSorted])
     (by decide)⟩

/-! ### `canResolve` and the first locator knowing the capability -/

/-- Modelled from the spec's wording for the amended behavior: the name-map of the
nearest locator in the chain that has any typed entry for the capability. -/
def firstWithCap (chain : List Reg) (t : TypeId) : Option NameMap :=
  match chain with
  | [] => none
  | r :: rest =>
    match lookupTyped r t with
    | none => firstWithCap rest t
    | some nm => some nm

/-- Rewrite every binding's `get` outcome in a registry; used to express that an
operation never invokes any construction function. -/
def setGets (g : Except SLErr (Option Inst)) (r : Reg) : Reg :=
  r.map fun p => (p.1, p.2.map fun q => (q.1, ⟨g⟩))

theorem lookupTyped_setGets (g : Except SLErr (Option Inst)) (r : Reg)
    (t : TypeId) :
    lookupTyped (setGets g r) t =
      (lookupTyped r t).map fun nm => nm.map fun q => (q.1, (⟨g⟩ : Binding)) := by
  induction r with
  | nil => rfl
  | cons p rest ih =>
    obtain ⟨t', nm'⟩ := p
    by_cases hc : t' = t
    · simp [setGets, lookupTyped, hc]
    · simp only [setGets, List.map_cons, lookupTyped, if_neg hc]
      simpa [setGets] using ih

theorem mapFind_map_gets (g : Except SLErr (Option Inst)) (nm : NameMap)
    (n : Name) :
    mapFind (nm.map fun q => (q.1, (⟨g⟩ : Binding))) n =
      (mapFind nm n).map fun _ => (⟨g⟩ : Binding) := by
  induction nm with
  | nil => rfl
  | cons q rest ih =>
    obtain ⟨n', b'⟩ := q
    by_cases hc : n' = n <;> simp [mapFind, hc, ih]

def cChildX : Reg := [(1, [(1, ⟨.ok (some 1)⟩)])]

def cParentY : Reg := [(1, [(2, ⟨.ok (some 2)⟩)])]

/-- C6 counterexample: the parent has a binding for capability 1 under name 2 and
the pair is even resolvable through the child, yet `canResolve` through the child
answers `false`, because the child's typed locator for capability 1 exists (for
name 1) and its branch never consults ancestors. -/
theorem canResolve_chain_cex :
    ownBinding cParentY 1 2 = some ⟨.ok (some 2)⟩ ∧
    slCanResolve [cChildX, cParentY] 1 2 = false ∧
    slResolve [cChildX, cParentY] 1 2 = .ok 2 :=
  ⟨by decide, by decide, by decide⟩

/-- C6 amended: `canResolve` delegates to the parent only while locators have no
typed entry for the capability at all; its answer is whether the nearest locator
in the chain holding any binding for the capability has one under the requested
name (ancestors beyond that locator are not consulted), and it is insensitive to
every binding's construction outcome — it never invokes construction. -/
theorem canResolve_nearest_capability (chain : List Reg) (t : TypeId) (n : Name) :
    (slCanResolve chain t n =
      match firstWithCap chain t with
      | none => false
      | some nm => tslCanResolve nm n) ∧
    (∀ g, slCanResolve (chain.map (setGets g)) t n = slCanResolve chain t n) := by
  constructor
  · induction chain with
    | nil => rfl
    | cons r rest ih =>
      rw [slCanResolve_cons]
      cases hl : lookupTyped r t with
      | none =>
        show (if rest.isEmpty then false else slCanResolve rest t n) = _
        rw [show firstWithCap (r :: rest) t = firstWithCap rest t by
          simp [firstWithCap, hl]]
        cases rest with
        | nil => simp [firstWithCap]
        | cons r' rest' => simpa using ih
      | some nm =>
        rw [show firstWithCap (r :: rest) t = some nm by simp [firstWithCap, hl]]
  · intro g
    induction chain with
    | nil => rfl
    | cons r rest ih =>
      rw [List.map_cons, slCanResolve_cons, slCanResolve_cons,
        lookupTyped_setGets]
      cases hl : lookupTyped r t with
      | none =>
        cases rest with
        | nil => simp
        | cons r' rest' => simpa using ih
      | some nm => simp [tslCanResolve, mapFind_map_gets]

/-! ### `tryResolve` as the soft-miss refinement of `resolve` -/

theorem slTryResolve_eq_slResolve (chain : List Reg) (t : TypeId) (n : Name)
    (h : ∀ r ∈ chain, ∀ b, ownBinding r t n = some b →
        b.get ≠ .error .unableToResolve) :
    slTryResolve chain t n =
      match slResolve chain t n with
      | .ok i => .ok (some i)
      | .error .unableToResolve => .ok none
      | .error e => .error e := by
  induction chain with
  | nil => rfl
  | cons r rest ih =>
    have hrest : ∀ x ∈ rest, ∀ b, ownBinding x t n = some b →
        b.get ≠ .error .unableToResolve :=
      fun x hx => h x (List.mem_cons_of_mem r hx)
    cases hl : lookupTyped r t with
    | none =>
      rw [slTryResolve_cons_none r rest t n hl, slResolve_cons_none r rest t n hl]
      cases rest with
      | nil => rfl
      | cons r' rest' => simpa using ih hrest
    | some nm =>
      rw [slTryResolve_cons_found r rest t n nm hl,
        slResolve_cons_found r rest t n nm hl]
      cases htr : tslTryResolve nm n with
      | error e =>
        have hne : e ≠ .unableToResolve := by
          cases hf : mapFind nm n with
          | none => simp [tslTryResolve, hf] at htr
          | some b =>
            simp only [tslTryResolve, hf] at htr
            intro he
            rw [he] at htr
            exact h r (List.mem_cons_self _ _) b
              (by simp [ownBinding, hl, hf]) htr
        cases e with
        | unableToResolve => exact absurd rfl hne
        | duplicateBinding => rfl
        | recursiveResolve => rfl
        | bindingIssue => rfl
      | ok oi =>
        cases oi with
        | none =>
          cases rest with
          | nil => rfl
          | cons r' rest' => simpa using ih hrest
        | some i => rfl

/-- C7: through the context layer, `tryResolve` behaves identically to `resolve` —
a detected recursive resolve still fails hard with `RecursiveResolve`, and any
exception thrown by a binding's construction (e.g. a `BindingIssue`) propagates
unchanged — except that where `resolve` fails with the engine's own
`UnableToResolve` (no binding produced an instance anywhere in the locator chain,
delimited by the hypothesis that no registered construction itself throws
`UnableToResolve`), `tryResolve` returns the empty result, propagated through
parent delegation. -/
theorem tryResolve_soft_miss (chain : CtxChain) (regs : List Reg) (t : TypeId)
    (n : Name)
    (h : ∀ r ∈ regs, ∀ b, ownBinding r t n = some b →
        b.get ≠ .error .unableToResolve) :
    ctxTryResolve chain regs t n =
      match ctxResolve chain regs t n with
      | .ok i => .ok (some i)
      | .error .unableToResolve => .ok none
      | .error e => .error e := by
  unfold ctxResolve ctxTryResolve
  by_cases hc : checkRecursiveResolve t n chain
  · simp [hc]
  · simp [hc, slTryResolve_eq_slResolve regs t n h]

def cRegSoft : Reg := [(1, [(0, ⟨.ok (some 3)⟩)])]

theorem tryResolve_soft_miss_witness :
    ctxTryResolve [(0, 0)] [cRegSoft] 1 0 =
      (match ctxResolve [(0, 0)] [cRegSoft] 1 0 with
       | .ok i => .ok (some i)
       | .error .unableToResolve => .ok none
       | .error e => .error e) :=
  tryResolve_soft_miss [(0, 0)] [cRegSoft] 1 0
    (by
      intro r hr b hb
      simp only [List.mem_singleton] at hr
      subst hr
      simp [ownBinding, cRegSoft, lookupTyped, mapFind] at hb
      simp [← hb])

/-! ### Duplicate-binding check (`bind`) -/

theorem mapFind_mapInsert_self (nm : NameMap) (n : Name) (b : Binding)
    (hf : mapFind nm n = none) : mapFind (mapInsert n b nm) n = some b := by
  induction nm with
  | nil => simp [mapInsert, mapFind]
  | cons p rest ih =>
    obtain ⟨n', b'⟩ := p
    obtain ⟨hne, hrest⟩ := mapFind_cons_none hf
    by_cases hlt : n < n'
    · simp [mapInsert, hlt, mapFind]
    · simp [mapInsert, hlt, mapFind, hne, ih hrest]

theorem lookupTyped_regSet (r : Reg) (t : TypeId) (nm : NameMap) :
    lookupTyped (regSet r t nm) t = some nm := by
  induction r with
  | nil => simp [regSet, lookupTyped]
  | cons p rest ih =>
    obtain ⟨t', nm'⟩ := p
    by_cases hc : t' = t
    · simp [regSet, hc, lookupTyped]
    · simp [regSet, hc, lookupTyped, ih]

theorem ownBinding_getD (r : Reg) (t : TypeId) (n : Name) :
    ownBinding r t n = mapFind ((lookupTyped r t).getD []) n := by
  unfold ownBinding
  cases lookupTyped r t <;> simp [mapFind]

/-- C8: `bind` fails with `DuplicateBinding` exactly when the `(capability, name)`
pair is already registered in this locator's own registry; otherwise it succeeds
and registers the binding. The check never involves any ancestor registry — `bind`
consults only the locator's own maps — so re-binding a pair already bound in a
parent locator succeeds in a child. -/
theorem bind_duplicate_own_registry (r : Reg) (t : TypeId) (n : Name)
    (b : Binding) :
    (slBind r t n b = .error .duplicateBinding ↔ ownBinding r t n ≠ none) ∧
    (ownBinding r t n = none →
        slBind r t n b =
          .ok (regSet r t (mapInsert n b ((lookupTyped r t).getD []))) ∧
        ownBinding (regSet r t (mapInsert n b ((lookupTyped r t).getD []))) t n =
          some b) := by
  have hob := ownBinding_getD r t n
  constructor
  · constructor
    · intro h
      unfold slBind tslBind tslCanResolve at h
      by_cases hf : (mapFind ((lookupTyped r t).getD []) n).isSome
      · rw [hob]
        exact Option.isSome_iff_ne_none.mp hf
      · simp [hf] at h
    · intro h
      rw [hob] at h
      unfold slBind tslBind tslCanResolve
      simp [Option.isSome_iff_ne_none.mpr h]
  · intro h
    rw [hob] at h
    refine ⟨?_, ?_⟩
    · unfold slBind tslBind tslCanResolve
      simp [h]
    · rw [ownBinding_getD, lookupTyped_regSet]
      simpa using mapFind_mapInsert_self _ n b h

def cRegDup : Reg := [(1, [(0, ⟨.ok (some 4)⟩)])]

theorem bind_duplicate_own_registry_witness :
    slBind cRegDup 1 0 ⟨.ok (some 5)⟩ = .error .duplicateBinding ∧
    slBind [] 1 0 ⟨.ok (some 5)⟩ =
      .ok (regSet [] 1 (mapInsert 0 ⟨.ok (some 5)⟩
        ((lookupTyped ([] : Reg) 1).getD []))) ∧
    ownBinding (regSet [] 1 (mapInsert 0 ⟨.ok (some 5)⟩
        ((lookupTyped ([] : Reg) 1).getD []))) 1 0 = some ⟨.ok (some 5)⟩ :=
  ⟨(bind_duplicate_own_registry cRegDup 1 0 ⟨.ok (some 5)⟩).1.mpr (by decide),
   ((bind_duplicate_own_registry [] 1 0 ⟨.ok (some 5)⟩).2 rfl).1,
   ((bind_duplicate_own_registry [] 1 0 ⟨.ok (some 5)⟩).2 rfl).2⟩

/-! ### Eager flush on `getContext` -/

theorem getContext_flush (bs : List Nat) : getContext ⟨bs⟩ = (bs, ⟨[]⟩) := by
  cases bs with
  | nil => rfl
  | cons b bs' => simp [getContext]

theorem runEager_append (ops₁ ops₂ : List EOp) (l : EagerLoc) :
    runEager (ops₁ ++ ops₂) l =
      ((runEager ops₁ l).1 ++ (runEager ops₂ (runEager ops₁ l).2).1,
       (runEager ops₂ (runEager ops₁ l).2).2) := by
  induction ops₁ generalizing l with
  | nil => rfl
  | cons op ops ih => cases op <;> simp [runEager, ih]

theorem runEager_binds (bs : List Nat) (l : EagerLoc) :
    runEager (bs.map EOp.bindEager) l =
      (List.replicate bs.length [], ⟨l.eagerBindings ++ bs⟩) := by
  induction bs generalizing l with
  | nil => simp [runEager]
  | cons b bs' ih => simp [runEager, eagerly, ih, List.replicate]

theorem runEager_getCtxs (k : Nat) :
    runEager (List.replicate k EOp.getCtx) ⟨[]⟩ = (List.replicate k [], ⟨[]⟩) := by
  induction k with
  | zero => rfl
  | succ k' ih => simp [List.replicate, runEager, getContext, ih]

/-- C9: after any sequence of eager binds on a fresh locator, no construction
happens at bind time (each bind step's event list is empty); the first
`getContext` call flushes the eager queue, invoking each queued binding's
construction exactly once in registration order, and leaves the queue empty, so
all `k` further `getContext` calls perform no eager construction; moreover
`getContext` is idempotent on the locator state. -/
theorem eager_flush_once (bs : List Nat) (k : Nat) :
    runEager (bs.map EOp.bindEager ++ EOp.getCtx :: List.replicate k EOp.getCtx)
        ⟨[]⟩ =
      (List.replicate bs.length [] ++ bs :: List.replicate k [], ⟨[]⟩) ∧
    (∀ l : EagerLoc, getContext (getContext l).2 = ([], (getContext l).2)) := by
  constructor
  · rw [runEager_append, runEager_binds]
    simp [runEager, getContext_flush, runEager_getCtxs]
  · intro l
    obtain ⟨q⟩ := l
    simp [getContext_flush]

/-! ### Null construction results delegate like missing bindings -/

theorem slTryResolve_ok_some (chain : List Reg) (t : TypeId) (n : Name) (i : Inst)
    (h : slTryResolve chain t n = .ok (some i)) :
    ∃ r' ∈ chain, ∃ b', ownBinding r' t n = some b' ∧ b'.get = .ok (some i) := by
  induction chain with
  | nil => simp [slTryResolve] at h
  | cons r rest ih =>
    cases hl : lookupTyped r t with
    | none =>
      rw [slTryResolve_cons_none r rest t n hl] at h
      cases rest with
      | nil => simp at h
      | cons r' rest' =>
        simp only [List.isEmpty_cons, if_neg] at h
        · obtain ⟨x, hx, hbx⟩ := ih h
          exact ⟨x, List.mem_cons_of_mem r hx, hbx⟩
    | some nm =>
      rw [slTryResolve_cons_found r rest t n nm hl] at h
      cases htr : tslTryResolve nm n with
      | error e => rw [htr] at h; cases h
      | ok oi =>
        rw [htr] at h
        cases oi with
        | none =>
          cases rest with
          | nil => simp at h
          | cons r' rest' =>
            simp only [List.isEmpty_cons, if_neg] at h
            · obtain ⟨x, hx, hbx⟩ := ih h
              exact ⟨x, List.mem_cons_of_mem r hx, hbx⟩
        | some j =>
          cases h
          cases hf : mapFind nm n with
          | none => simp [tslTryResolve, hf] at htr
          | some b =>
            simp only [tslTryResolve, hf] at htr
            exact ⟨r, List.mem_cons_self _ _, b,
              by simp [ownBinding, hl, hf], htr⟩

theorem slResolve_ok (chain : List Reg) (t : TypeId) (n : Name) (i : Inst)
    (h : slResolve chain t n = .ok i) :
    ∃ r' ∈ chain, ∃ b', ownBinding r' t n = some b' ∧ b'.get = .ok (some i) := by
  induction chain with
  | nil => simp [slResolve] at h
  | cons r rest ih =>
    cases hl : lookupTyped r t with
    | none =>
      rw [slResolve_cons_none r rest t n hl] at h
      cases rest with
      | nil => simp at h
      | cons r' rest' =>
        simp only [List.isEmpty_cons, if_neg] at h
        · obtain ⟨x, hx, hbx⟩ := ih h
          exact ⟨x, List.mem_cons_of_mem r hx, hbx⟩
    | some nm =>
      rw [slResolve_cons_found r rest t n nm hl] at h
      cases htr : tslTryResolve nm n with
      | error e => rw [htr] at h; cases h
      | ok oi =>
        rw [htr] at h
        cases oi with
        | none =>
          cases rest with
          | nil => simp at h
          | cons r' rest' =>
            simp only [List.isEmpty_cons, if_neg] at h
            · obtain ⟨x, hx, hbx⟩ := ih h
              exact ⟨x, List.mem_cons_of_mem r hx, hbx⟩
        | some j =>
          cases h
          cases hf : mapFind nm n with
          | none => simp [tslTryResolve, hf] at htr
          | some b =>
            simp only [tslTryResolve, hf] at htr
            exact ⟨r, List.mem_cons_self _ _, b,
              by simp [ownBinding, hl, hf], htr⟩

/-- C10: when a locator's matching binding's `get` returns a null instance, both
`_resolve` and `_tryResolve` treat the outcome exactly like a missing binding —
they delegate the same lookup to the parent when one exists, and with the chain
exhausted `_resolve` fails with `UnableToResolve` while `_tryResolve` returns the
empty result; and a null construction result is never surfaced as success, since
every successful resolution traces back to a registered binding whose `get`
returned that non-null instance. -/
theorem null_get_delegates (r : Reg) (rest : List Reg) (t : TypeId) (n : Name)
    (b : Binding) (hb : ownBinding r t n = some b) (hnull : b.get = .ok none) :
    slResolve (r :: rest) t n =
      (if rest.isEmpty then .error .unableToResolve else slResolve rest t n) ∧
    slTryResolve (r :: rest) t n =
      (if rest.isEmpty then .ok none else slTryResolve rest t n) ∧
    (∀ (chain : List Reg) (i : Inst), slResolve chain t n = .ok i →
        ∃ r' ∈ chain, ∃ b', ownBinding r' t n = some b' ∧
          b'.get = .ok (some i)) ∧
    (∀ (chain : List Reg) (i : Inst), slTryResolve chain t n = .ok (some i) →
        ∃ r' ∈ chain, ∃ b', ownBinding r' t n = some b' ∧
          b'.get = .ok (some i)) := by
  cases hl : lookupTyped r t with
  | none => simp [ownBinding, hl] at hb
  | some nm =>
    simp only [ownBinding, hl] at hb
    have htr : tslTryResolve nm n = .ok none := by
      simp [tslTryResolve, hb, hnull]
    refine ⟨?_, ?_, fun chain i h => slResolve_ok chain t n i h,
      fun chain i h => slTryResolve_ok_some chain t n i h⟩
    · rw [slResolve_cons_found r rest t n nm hl, htr]
    · rw [slTryResolve_cons_found r rest t n nm hl, htr]

def cRegNull : Reg := [(1, [(0, ⟨.ok none⟩)])]

def cRegSeven : Reg := [(1, [(0, ⟨.ok (some 7)⟩)])]

theorem null_get_delegates_witness :
    slResolve [cRegNull, cRegSeven] 1 0 = slResolve [cRegSeven] 1 0 ∧
    slTryResolve [cRegNull, cRegSeven] 1 0 = slTryResolve [cRegSeven] 1 0 ∧
    (∃ r' ∈ [cRegNull, cRegSeven], ∃ b', ownBinding r' 1 0 = some b' ∧
        b'.get = .ok (some 7)) :=
  ⟨((null_get_delegates cRegNull [cRegSeven] 1 0 ⟨.ok none⟩ rfl rfl).1).trans
     (by simp),
   ((null_get_delegates cRegNull [cRegSeven] 1 0 ⟨.ok none⟩ rfl rfl).2.1).trans
     (by simp),
   (null_get_delegates cRegNull [cRegSeven] 1 0 ⟨.ok none⟩ rfl rfl).2.2.2
     [cRegNull, cRegSeven] 7 (by decide)⟩

end CPPServiceLocator
